import Mathlib

/-!
Verification development for the av-sync tool (src/main.py).

The source is a single Python script that estimates the time lag between the
audio track of a video file and an external audio recording via a full
cross-correlation, and then plans an ffmpeg edit (trim or pad-and-concat)
from the sign of the lag.

Audio samples are modelled as exact rationals.  The Python/NumPy functions
are embedded as computable Lean functions:

  * `AvSync.correlateFull` embeds `scipy.signal.correlate(a, v, mode="full")`,
    through the documented identity `correlate(a, v) = convolve(a, reverse v)`:
    entry `i` is the sum over `n` of `a[n + i - (len v - 1)] * v[n]`,
    where indices outside `a` contribute zero.
  * `AvSync.argmax` embeds `np.argmax`: index of the first occurrence of the
    maximum value (the running best is replaced only by a strictly greater
    element).
  * `AvSync.find_offset`, `AvSync.insert_padding`, `AvSync.format_time`
    embed the like-named functions of src/main.py.
  * `AvSync.mainFlow` embeds the `__main__` procedural flow (lines 74-176)
    as a trace of observable events plus a process exit code, parameterised
    by the probe results, the loaded waveforms, the working directory, the
    name of the temporary concat list, and the exit codes of the external
    ffmpeg invocations (the script ignores their return values).
-/

namespace AvSync

/-- Sample of a waveform at a signed index; zero outside the list, matching
the zero contribution of out-of-range terms in a full cross-correlation. -/
def sampleAt (a : List ℚ) (j : ℤ) : ℚ :=
  if 0 ≤ j then a.getD j.toNat 0 else 0

/-- Entry `i` of `scipy.signal.correlate(a, v, mode="full")`:
`c[i] = Σ_{n < len v} a[n + i - (len v - 1)] * v[n]`. -/
def corrAt (a v : List ℚ) (i : ℕ) : ℚ :=
  ∑ n ∈ Finset.range v.length,
    sampleAt a ((n : ℤ) + (i : ℤ) - ((v.length : ℤ) - 1)) * v.getD n 0

/-- Embedding of `scipy.signal.correlate(a, v, mode="full", method="fft")`.
The fft method computes the same values as the direct sum; the output has
length `len a + len v - 1`. -/
def correlateFull (a v : List ℚ) : List ℚ :=
  (List.range (a.length + v.length - 1)).map (corrAt a v)

/-- Helper for `argmax`: best index and value so far, current index, rest of
the list.  The best element is replaced only by a strictly greater one, so
the first occurrence of the maximum wins, as in `np.argmax`. -/
def argmaxFrom (bi : ℕ) (bv : ℚ) (i : ℕ) : List ℚ → ℕ
  | [] => bi
  | x :: xs => if bv < x then argmaxFrom i x (i + 1) xs else argmaxFrom bi bv (i + 1) xs

/-- Embedding of `np.argmax` on a rational array: index of the first
occurrence of the maximum value (0 on the empty list, which NumPy rejects). -/
def argmax : List ℚ → ℕ
  | [] => 0
  | x :: xs => argmaxFrom 0 x 1 xs

/-- Embedding of `find_offset` (src/main.py lines 20-26):
`lag = np.argmax(correlation) - len(audio2) + 1`, where `correlation` is the
full fft cross-correlation of the two inputs. -/
def find_offset (audio1 audio2 : List ℚ) : ℤ :=
  (argmax (correlateFull audio1 audio2) : ℤ) - (audio2.length : ℤ) + 1

/-- Embedding of the inline lag computation of the main flow
(src/main.py lines 91-93): the same full fft cross-correlation followed by
`np.argmax(correlation) - len(audio2) + 1`. -/
def mainLag (audio1 audio2 : List ℚ) : ℤ :=
  (argmax (correlateFull audio1 audio2) : ℤ) - (audio2.length : ℤ) + 1

/-- Embedding of `insert_padding` (src/main.py lines 29-34): the shorter
input is zero-padded at its trailing end to the length of the longer one. -/
def insert_padding (audio1 audio2 : List ℚ) : List ℚ × List ℚ :=
  if audio1.length > audio2.length then
    (audio1, audio2 ++ List.replicate (audio1.length - audio2.length) 0)
  else
    (audio1 ++ List.replicate (audio2.length - audio1.length) 0, audio2)

/-- Zero-pad a nat to at least two digits, as Python `f"{n:02}"`. -/
def pad2 (n : ℕ) : String :=
  if n < 10 then "0" ++ toString n else toString n

/-- Zero-pad a nat to at least three digits, used for the millisecond part
of the `%06.3f` field. -/
def pad3 (n : ℕ) : String :=
  if n < 10 then "00" ++ toString n
  else if n < 100 then "0" ++ toString n
  else toString n

/-- Python `f"{s:06.3f}"` for a nonnegative fractional second value below
100: the value rounded to three decimals, zero-padded so the whole field has
width six. -/
def fmtSec (s : ℚ) : String :=
  let ms : ℕ := (round (s * 1000)).toNat
  pad2 (ms / 1000) ++ "." ++ pad3 (ms % 1000)

/-- Shared decomposition used by `format_time` and by the inline output-name
computation (src/main.py lines 105-109): `seconds = abs(frame)/rate`,
`m, s = divmod(seconds, 60)`, `h, m = divmod(m, 60)`; returns
`(int h, int m, s)` with `s` kept fractional. -/
def hms (frame : ℤ) (sample_rate : ℕ) : ℕ × ℕ × ℚ :=
  let seconds : ℚ := (frame.natAbs : ℚ) / (sample_rate : ℚ)
  let m : ℕ := (⌊seconds / 60⌋).toNat
  let s : ℚ := seconds - 60 * (m : ℚ)
  (m / 60, m % 60, s)

/-- Embedding of `format_time` (src/main.py lines 36-40):
`f"{int(h):02}:{int(m):02}:{s:06.3f}"`. -/
def format_time (frame : ℤ) (sample_rate : ℕ) : String :=
  let p := hms frame sample_rate
  pad2 p.1 ++ ":" ++ pad2 p.2.1 ++ ":" ++ fmtSec p.2.2

/-- Embedding of the inline output-name timecode (src/main.py lines
105-109): the same decomposition as `format_time`, rendered with hyphens as
`f"{int(h):02}-{int(m):02}-{s:06.3f}"`. -/
def hyphen_time (frame : ℤ) (sample_rate : ℕ) : String :=
  let p := hms frame sample_rate
  pad2 p.1 ++ "-" ++ pad2 p.2.1 ++ "-" ++ fmtSec p.2.2

/-- Purely natural-number evaluation of the `hms` decomposition together
with the rounded millisecond value of the seconds field, for a nonnegative
frame count `n` and rate `r`: hours, minutes, milliseconds. -/
def hmsNat (n r : ℕ) : ℕ × ℕ × ℕ :=
  let m := n / (60 * r)
  let x := n % (60 * r)
  (m / 60, m % 60, (2000 * x + r) / (2 * r))

/-- Impulse signal: a list of length `N` whose only nonzero sample is a one
at position `p`. -/
def impulse (N p : ℕ) : List ℚ :=
  (List.range N).map fun n => if n = p then 1 else 0

/-- Shift a signal right by `k` samples with zero fill, keeping its length:
`k` zeros are prepended and the last `k` samples fall off the end. -/
def shiftRightZ (k : ℕ) (l : List ℚ) : List ℚ :=
  (List.replicate k 0 ++ l).take l.length

/-- Split a character list on a separator character; always returns at
least one (possibly empty) piece, like Python `str.split`. -/
def splitOnChar (c : Char) : List Char → List (List Char)
  | [] => [[]]
  | x :: xs =>
    match splitOnChar c xs with
    | [] => [[]]
    | h :: t => if x = c then [] :: h :: t else (x :: h) :: t

/-- Embedding of `os.path.dirname`: everything before the last slash, empty
when there is no slash. -/
def dirname (p : String) : String :=
  String.intercalate "/" (((splitOnChar '/' p.toList).dropLast).map String.mk)

/-- Embedding of `os.path.basename`: the part after the last slash. -/
def basename (p : String) : String :=
  String.mk ((splitOnChar '/' p.toList).getLastD [])

/-- Embedding of `os.path.join` for one relative component. -/
def joinPath (a b : String) : String :=
  if a = "" then b else a ++ "/" ++ b

/-- Embedding of `os.path.splitext`: split at the last dot, provided some
character before it is not a dot (so names made of leading dots keep no
extension), as in the CPython implementation. -/
def splitext (s : String) : String × String :=
  let cs := s.toList
  match ((List.range cs.length).filter fun i => cs.getD i ' ' = '.').getLast? with
  | none => (s, "")
  | some d =>
    if (cs.take d).any (fun c => c ≠ '.') then (String.mk (cs.take d), String.mk (cs.drop d))
    else (s, "")

/-- Embedding of `os.path.abspath` for the paths handed to the concat list:
a path beginning with a slash is kept, anything else is resolved against
the working directory. -/
def absPath (cwd p : String) : String :=
  match p.toList with
  | c :: _ => if c = '/' then p else cwd ++ "/" ++ p
  | [] => cwd ++ "/" ++ p

/-- Metadata of the first video and first audio stream as returned by
`get_stream_info` (src/main.py lines 43-64), with every field already
passed through `str(...)` as the script does. -/
structure StreamInfo where
  codec_name : String
  profile : String
  level : String
  pix_fmt : String
deriving DecidableEq, Repr

/-- Observable events of the `__main__` flow: directory creation, a failed
assertion, a line printed to stdout, an external command invocation with
its exit code, the write and the automatic deletion of the temporary concat
list, the removal of a file, and `sys.exit(0)`. -/
inductive Event where
  | mkdir (path : String)
  | assertFail (msg : String)
  | print (s : String)
  | runProc (cmd : List String) (exitCode : ℤ)
  | writeTemp (content : String)
  | dropTemp
  | removeFile (path : String)
  | exitOk
deriving DecidableEq, Repr

/-- Whether an event writes to the filesystem (directory creation, external
command, temp-file write, file removal). -/
def Event.writesFs : Event → Bool
  | .mkdir _ => true
  | .runProc _ _ => true
  | .writeTemp _ => true
  | .removeFile _ => true
  | _ => false

/-- Whether an event is a failed assertion. -/
def Event.isAssertFail : Event → Bool
  | .assertFail _ => true
  | _ => false

/-- The `cut` destination directory (src/main.py line 74). -/
def destDirOf (videoPath : String) : String :=
  joinPath (dirname videoPath) "cut"

/-- The output file name (src/main.py lines 108-109):
`f"{video_name}_{int(h):02}-{int(m):02}-{s:06.3f}{ext}"`. -/
def outputNameOf (videoPath : String) (lag : ℤ) : String :=
  (splitext (basename videoPath)).1 ++ "_" ++ hyphen_time lag 44100 ++
    (splitext (basename videoPath)).2

/-- Path of the synthetic padding video (src/main.py line 115):
`f"{video_name}_empty{ext}"` inside the destination directory. -/
def emptyPathOf (videoPath : String) : String :=
  joinPath (destDirOf videoPath)
    ((splitext (basename videoPath)).1 ++ "_empty" ++ (splitext (basename videoPath)).2)

/-- The ffmpeg invocation that synthesizes the padding video
(src/main.py lines 118-133). -/
def padCmdOf (videoPath ss : String) (video : StreamInfo) (emptyPath : String) :
    List String :=
  ["ffmpeg", "-i", videoPath, "-f", "lavfi", "-i", "aevalsrc=0|0:c=stereo",
   "-map", "0:0", "-map", "1:0", "-filter_complex", "tpad=start_duration=10000",
   "-t", ss, "-c:v", video.codec_name, "-profile:v", video.profile,
   "-level:v", video.level, "-pix_fmt", video.pix_fmt, emptyPath, "-y"]

/-- The ffmpeg invocation that concatenates the padding video and the
original and truncates to the probe duration (src/main.py lines 148-158). -/
def concatCmdOf (tmpName t outPath : String) : List String :=
  ["ffmpeg", "-safe", "0", "-f", "concat", "-i", tmpName, "-t", t,
   "-c", "copy", "-movflags", "faststart", outPath, "-y"]

/-- The ffmpeg invocation of the forward-trim branch
(src/main.py lines 165-174). -/
def trimCmdOf (ss videoPath t outPath : String) : List String :=
  ["ffmpeg", "-ss", ss, "-i", videoPath, "-t", t,
   "-c", "copy", "-movflags", "faststart", outPath, "-y"]

/-- Content of the temporary concat list (src/main.py lines 137-142): one
`file` line per absolute path, padding video first. -/
def concatListOf (cwd videoPath : String) : String :=
  "file \x27" ++ absPath cwd (emptyPathOf videoPath) ++ "\x27\n" ++
  "file \x27" ++ absPath cwd videoPath ++ "\x27\n"

/-- The three stdout lines common to every run (src/main.py lines 95-100):
the lag with the sample rate, the start timecode, the duration timecode. -/
def offsetHeader (lag : ℤ) (ss t : String) : List Event :=
  [.print ("Offset: " ++ toString lag ++ " 44100"), .print ss, .print t]

/-- Events of the backward (pad-and-concat) branch
(src/main.py lines 112-162), in program order: synthesize the padding
video, write the concat list, run the concat, leave the temp-file scope
(which deletes the list), then remove the padding video. -/
def padBranch (videoPath : String) (video : StreamInfo)
    (ss t outName tmpName cwd : String) (padExit concatExit : ℤ) : List Event :=
  [ .print "backward offset mode",
    .print (String.intercalate " " (padCmdOf videoPath ss video (emptyPathOf videoPath))),
    .runProc (padCmdOf videoPath ss video (emptyPathOf videoPath)) padExit,
    .writeTemp (concatListOf cwd videoPath),
    .print (String.intercalate " "
      (concatCmdOf tmpName t (joinPath (destDirOf videoPath) outName))),
    .runProc (concatCmdOf tmpName t (joinPath (destDirOf videoPath) outName)) concatExit,
    .dropTemp,
    .removeFile (emptyPathOf videoPath) ]

/-- Events of the forward-trim branch (src/main.py lines 164-176). -/
def trimBranch (videoPath ss t outName : String) (trimExit : ℤ) : List Event :=
  [ .print (String.intercalate " "
      (trimCmdOf ss videoPath t (joinPath (destDirOf videoPath) outName))),
    .runProc (trimCmdOf ss videoPath t (joinPath (destDirOf videoPath) outName)) trimExit ]

/-- Embedding of the `__main__` flow of src/main.py (lines 74-176) after a
successful probe and audio load, as the list of observable events and the
process exit code.  Parameters: the video path, the `--check` flag, the
first video and first audio stream records, the two loaded waveforms, the
working directory, the temporary concat-list name, and the exit codes of
the three possible ffmpeg invocations (ignored by the script).  A failed
`assert` terminates the run with exit code 1. -/
def mainFlow (videoPath : String) (check : Bool) (video audio : StreamInfo)
    (audio1 audio2 : List ℚ) (cwd tmpName : String)
    (padExit concatExit trimExit : ℤ) : List Event × ℤ :=
  let dest_dir := destDirOf videoPath
  let rest : List Event → List Event × ℤ := fun pre =>
    let raw_len := audio2.length
    let padded := insert_padding audio1 audio2
    let lag := mainLag padded.1 padded.2
    let ss := format_time lag 44100
    let t := format_time (raw_len : ℤ) 44100
    let header := pre ++ offsetHeader lag ss t
    if check then (header ++ [.exitOk], 0)
    else
      let outName := outputNameOf videoPath lag
      if lag < 0 then
        (header ++ [.print outName] ++
          padBranch videoPath video ss t outName tmpName cwd padExit concatExit, 0)
      else
        (header ++ [.print outName] ++ trimBranch videoPath ss t outName trimExit, 0)
  if check then rest []
  else if video.codec_name ≠ "h264" then
    ([.mkdir dest_dir, .assertFail "only support h264 for video codes"], 1)
  else if audio.codec_name ≠ "aac" then
    ([.mkdir dest_dir, .assertFail "only support aac for audio codes"], 1)
  else rest [.mkdir dest_dir]

/-- The lag of the main flow as a function of the two loaded waveforms
(src/main.py lines 85-93): zero-pad the shorter, then the inline
correlation and argmax. -/
def flowLag (audio1 audio2 : List ℚ) : ℤ :=
  mainLag (insert_padding audio1 audio2).1 (insert_padding audio1 audio2).2

end AvSync

namespace AvSync

/-! ### Evaluation of the timecode formatter over the naturals

`hms` divides exact rationals; the following lemmas push the computation
down to natural-number division so that concrete timecodes can be checked
by `decide`. -/

lemma length_correlateFull (a v : List ℚ) :
    (correlateFull a v).length = a.length + v.length - 1 := by
  simp [correlateFull]

lemma natCast_div_natCast_floor (m d : ℕ) : ⌊((m : ℚ) / (d : ℚ))⌋.toNat = m / d := by
  rw [Int.floor_toNat, Nat.floor_div_eq_div]

lemma roundMs (x r : ℕ) :
    (round (((x : ℚ) / (r : ℚ)) * 1000)).toNat = (2000 * x + r) / (2 * r) := by
  rcases Nat.eq_zero_or_pos r with hr | hr
  · subst hr; simp
  · have hr' : ((r : ℚ)) ≠ 0 := by positivity
    have key : ((x : ℚ) / (r : ℚ)) * 1000 + 1 / 2 =
        ((2000 * x + r : ℕ) : ℚ) / ((2 * r : ℕ) : ℚ) := by
      push_cast
      field_simp
      ring
    rw [round_eq, key, natCast_div_natCast_floor]

lemma hms_cast_eval (n r : ℕ) :
    hms (n : ℤ) r =
      ((n / (60 * r)) / 60, (n / (60 * r)) % 60, ((n % (60 * r) : ℕ) : ℚ) / (r : ℚ)) := by
  have habs : ((n : ℤ)).natAbs = n := Int.natAbs_ofNat n
  have hm : (⌊((n : ℚ) / (r : ℚ)) / 60⌋).toNat = n / (60 * r) := by
    rw [div_div]
    have : ((r : ℚ)) * 60 = ((60 * r : ℕ) : ℚ) := by push_cast; ring
    rw [this, natCast_div_natCast_floor]
  have hs : (n : ℚ) / (r : ℚ) - 60 * ((n / (60 * r) : ℕ) : ℚ) =
      ((n % (60 * r) : ℕ) : ℚ) / (r : ℚ) := by
    rcases Nat.eq_zero_or_pos r with hr | hr
    · subst hr; simp
    · have hr' : ((r : ℚ)) ≠ 0 := by positivity
      have hdm : ((60 * r * (n / (60 * r)) + n % (60 * r) : ℕ) : ℚ) = ((n : ℕ) : ℚ) := by
        exact_mod_cast congrArg (Nat.cast : ℕ → ℚ) (Nat.div_add_mod n (60 * r))
      push_cast at hdm
      field_simp
      linarith
  simp only [hms, Int.natAbs_ofNat]
  rw [hm, hs]

lemma format_time_eval (frame : ℤ) (r : ℕ) :
    format_time frame r =
      pad2 (hmsNat frame.natAbs r).1 ++ ":" ++ pad2 (hmsNat frame.natAbs r).2.1 ++ ":" ++
      pad2 ((hmsNat frame.natAbs r).2.2 / 1000) ++ "." ++ pad3 ((hmsNat frame.natAbs r).2.2 % 1000) := by
  have hframe : hms frame r = hms ((frame.natAbs : ℕ) : ℤ) r := by
    simp only [hms, Int.natAbs_ofNat]
  simp only [format_time, fmtSec, hmsNat, hframe, hms_cast_eval, roundMs,
    String.append_assoc]

lemma hyphen_time_eval (frame : ℤ) (r : ℕ) :
    hyphen_time frame r =
      pad2 (hmsNat frame.natAbs r).1 ++ "-" ++ pad2 (hmsNat frame.natAbs r).2.1 ++ "-" ++
      pad2 ((hmsNat frame.natAbs r).2.2 / 1000) ++ "." ++ pad3 ((hmsNat frame.natAbs r).2.2 % 1000) := by
  have hframe : hms frame r = hms ((frame.natAbs : ℕ) : ℤ) r := by
    simp only [hms, Int.natAbs_ofNat]
  simp only [hyphen_time, fmtSec, hmsNat, hframe, hms_cast_eval, roundMs,
    String.append_assoc]

/-- C5: `format_time` renders the absolute frame count over the sample rate
as `HH:MM:SS.mmm` with millisecond precision, ignoring the sign of the
frame; in particular the three documented timecodes are produced
byte-for-byte. -/
theorem format_time_values :
    format_time 0 44100 = "00:00:00.000" ∧
    format_time 44100 44100 = "00:00:01.000" ∧
    format_time (-(44100 * 3661)) 44100 = "01:01:01.000" ∧
    ∀ (frame : ℤ) (rate : ℕ), format_time frame rate = format_time (-frame) rate := by
  refine ⟨?_, ?_, ?_, ?_⟩
  · rw [format_time_eval]; decide
  · rw [format_time_eval]; decide
  · rw [format_time_eval]; decide
  · intro frame rate
    simp only [format_time, hms, Int.natAbs_neg]

/-- C10: the lag computed inline in the main flow coincides with
`find_offset` on the same two waveforms, for every pair of waveforms. -/
theorem mainLag_eq_find_offset (audio1 audio2 : List ℚ) :
    mainLag audio1 audio2 = find_offset audio1 audio2 := rfl

/-- C4: padding of the shorter input, stated for both argument orders: for
lengths `N1 < N2` both returned sequences have length `N2`, the shorter
keeps its first `N1` samples and gains `N2 - N1` trailing zeros, and the
longer is returned unchanged. -/
theorem insert_padding_spec (a1 a2 : List ℚ) (h : a1.length < a2.length) :
    ((insert_padding a1 a2).1.length = a2.length ∧
     (insert_padding a1 a2).2.length = a2.length ∧
     (insert_padding a1 a2).2 = a2 ∧
     (insert_padding a1 a2).1.take a1.length = a1 ∧
     (insert_padding a1 a2).1.drop a1.length = List.replicate (a2.length - a1.length) 0) ∧
    ((insert_padding a2 a1).1.length = a2.length ∧
     (insert_padding a2 a1).2.length = a2.length ∧
     (insert_padding a2 a1).1 = a2 ∧
     (insert_padding a2 a1).2.take a1.length = a1 ∧
     (insert_padding a2 a1).2.drop a1.length = List.replicate (a2.length - a1.length) 0) := by
  have h1 : ¬ (a1.length > a2.length) := by omega
  have h2 : a2.length > a1.length := h
  constructor
  · rw [insert_padding, if_neg h1]
    refine ⟨?_, rfl, rfl, ?_, ?_⟩
    · simp only [List.length_append, List.length_replicate]; omega
    · exact List.take_left a1 _
    · exact List.drop_left a1 _
  · rw [insert_padding, if_pos h2]
    refine ⟨rfl, ?_, rfl, ?_, ?_⟩
    · simp only [List.length_append, List.length_replicate]; omega
    · exact List.take_left a1 _
    · exact List.drop_left a1 _

/-- Witness for C4 at `a1 = [5]`, `a2 = [1, 2, 3]`. -/
theorem insert_padding_spec_witness :
    ([5] : List ℚ).length < ([1, 2, 3] : List ℚ).length ∧
    (((insert_padding [5] [1, 2, 3]).1.length = ([1, 2, 3] : List ℚ).length ∧
      (insert_padding [5] [1, 2, 3]).2.length = ([1, 2, 3] : List ℚ).length ∧
      (insert_padding [5] [1, 2, 3]).2 = [1, 2, 3] ∧
      (insert_padding [5] [1, 2, 3]).1.take ([5] : List ℚ).length = [5] ∧
      (insert_padding [5] [1, 2, 3]).1.drop ([5] : List ℚ).length =
        List.replicate (([1, 2, 3] : List ℚ).length - ([5] : List ℚ).length) 0) ∧
     ((insert_padding [1, 2, 3] [5]).1.length = ([1, 2, 3] : List ℚ).length ∧
      (insert_padding [1, 2, 3] [5]).2.length = ([1, 2, 3] : List ℚ).length ∧
      (insert_padding [1, 2, 3] [5]).1 = [1, 2, 3] ∧
      (insert_padding [1, 2, 3] [5]).2.take ([5] : List ℚ).length = [5] ∧
      (insert_padding [1, 2, 3] [5]).2.drop ([5] : List ℚ).length =
        List.replicate (([1, 2, 3] : List ℚ).length - ([5] : List ℚ).length) 0)) :=
  ⟨by decide, insert_padding_spec [5] [1, 2, 3] (by decide)⟩

/-- Counterexample to C1: on `audio1 = [1, 0]`, `audio2 = [-1, 0]` the full
correlation is `[0, -1, 0]`; `np.argmax` selects index 0 (the greatest
signed value), whose magnitude is not maximal (index 1 has magnitude 1),
and the returned lag is `-1`, not `argmax of magnitude - (N - 1) = 0`. -/
theorem find_offset_not_max_magnitude :
    correlateFull [1, 0] [-1, 0] = [0, -1, 0] ∧
    find_offset [1, 0] [-1, 0] = -1 ∧
    argmax (correlateFull [1, 0] [-1, 0]) = 0 ∧
    |(correlateFull [1, 0] [-1, 0]).getD 0 0| < |(correlateFull [1, 0] [-1, 0]).getD 1 0| := by
  with_unfolding_all decide

/-- Counterexample to C2: for `A = [1, 0]` and `B = A` shifted right by one
sample, `find_offset A B = -1`, not `1`; and for `A = [1, 2]` with the same
shift the result is `0`, so not even the sign-reversed identity holds for
arbitrary samples. -/
theorem find_offset_shift_counter :
    shiftRightZ 1 [1, 0] = [0, 1] ∧
    find_offset [1, 0] [0, 1] = -1 ∧
    shiftRightZ 1 [1, 2] = [0, 1] ∧
    find_offset [1, 2] [0, 1] = 0 := by
  with_unfolding_all decide

/-! ### First-occurrence semantics of `argmax` -/

lemma argmaxFrom_of_le (l : List ℚ) :
    ∀ (bi i : ℕ) (bv : ℚ), (∀ k, k < l.length → l.getD k 0 ≤ bv) →
      argmaxFrom bi bv i l = bi := by
  induction l with
  | nil => intro bi i bv _; rfl
  | cons x xs ih =>
    intro bi i bv h
    have hx : x ≤ bv := by simpa using h 0 (by simp)
    rw [argmaxFrom, if_neg (not_lt.2 hx)]
    refine ih bi (i + 1) bv fun k hk => ?_
    simpa using h (k + 1) (by simpa using Nat.succ_lt_succ hk)

lemma argmaxFrom_of_gt (l : List ℚ) :
    ∀ (bi i : ℕ) (bv : ℚ) (k : ℕ), k < l.length → bv < l.getD k 0 →
      (∀ m, m < l.length → l.getD m 0 ≤ l.getD k 0) →
      (∀ m, m < k → l.getD m 0 < l.getD k 0) →
      argmaxFrom bi bv i l = i + k := by
  induction l with
  | nil => intro _ _ _ k hk; exact absurd hk (by simp)
  | cons x xs ih =>
    intro bi i bv k hk hbv hmax hfirst
    cases k with
    | zero =>
      rw [argmaxFrom, if_pos (by simpa using hbv)]
      have := argmaxFrom_of_le xs i (i + 1) x fun m hm => by
        simpa using hmax (m + 1) (by simpa using Nat.succ_lt_succ hm)
      rw [this]
      omega
    | succ k' =>
      have hk' : k' < xs.length := by simpa using hk
      have hxk : x < xs.getD k' 0 := by simpa using hfirst 0 (Nat.succ_pos _)
      have hmax' : ∀ m, m < xs.length → xs.getD m 0 ≤ xs.getD k' 0 := fun m hm => by
        simpa using hmax (m + 1) (by simpa using Nat.succ_lt_succ hm)
      have hfirst' : ∀ m, m < k' → xs.getD m 0 < xs.getD k' 0 := fun m hm => by
        simpa using hfirst (m + 1) (by omega)
      rw [argmaxFrom]
      by_cases hbx : bv < x
      · rw [if_pos hbx, ih i (i + 1) x k' hk' hxk hmax' hfirst']
        omega
      · rw [if_neg hbx, ih bi (i + 1) bv k' hk' (by simpa using hbv) hmax' hfirst']
        omega

lemma argmax_spec (l : List ℚ) (hl : 0 < l.length) :
    argmax l < l.length ∧
    (∀ m, m < l.length → l.getD m 0 ≤ l.getD (argmax l) 0) ∧
    (∀ m, m < argmax l → l.getD m 0 < l.getD (argmax l) 0) := by
  classical
  have hex : ∃ k, k < l.length ∧ ∀ m, m < l.length → l.getD m 0 ≤ l.getD k 0 := by
    obtain ⟨b, hb, hble⟩ := Finset.exists_max_image (Finset.range l.length)
      (fun m => l.getD m 0) ⟨0, Finset.mem_range.2 hl⟩
    exact ⟨b, Finset.mem_range.1 hb,
      fun m hm => hble m (Finset.mem_range.2 hm)⟩
  let k0 := Nat.find hex
  have hk0 : k0 < l.length ∧ ∀ m, m < l.length → l.getD m 0 ≤ l.getD k0 0 :=
    Nat.find_spec hex
  have hleast : ∀ m, m < k0 → l.getD m 0 < l.getD k0 0 := by
    intro m hm
    have hmlen : m < l.length := lt_trans hm hk0.1
    have hnot := Nat.find_min hex hm
    push_neg at hnot
    obtain ⟨m2, hm2, hgt⟩ := hnot hmlen
    exact lt_of_lt_of_le hgt (hk0.2 m2 hm2)
  have hmain : argmax l = k0 := by
    cases l with
    | nil => simp at hl
    | cons x xs =>
      show argmaxFrom 0 x 1 xs = k0
      cases hc : k0 with
      | zero =>
        refine argmaxFrom_of_le xs 0 1 x fun k hk2 => ?_
        have := hk0.2 (k + 1) (by simpa using Nat.succ_lt_succ hk2)
        rw [hc] at this
        simpa using this
      | succ k' =>
        have hk' : k' < xs.length := by
          have := hk0.1; rw [hc] at this; simpa using this
        have hxk : x < xs.getD k' 0 := by
          have := hleast 0 (by omega)
          rw [hc] at this
          simpa using this
        have hmax' : ∀ m, m < xs.length → xs.getD m 0 ≤ xs.getD k' 0 := by
          intro m hm
          have := hk0.2 (m + 1) (by simpa using Nat.succ_lt_succ hm)
          rw [hc] at this
          simpa using this
        have hfirst' : ∀ m, m < k' → xs.getD m 0 < xs.getD k' 0 := by
          intro m hm
          have := hleast (m + 1) (by omega)
          rw [hc] at this
          simpa using this
        rw [argmaxFrom_of_gt xs 0 1 x k' hk' hxk hmax' hfirst']
        omega
  rw [hmain]
  exact ⟨hk0.1, hk0.2, hleast⟩

/-- C3: the returned lag corresponds to the selected correlation index, the
selected index attains the maximum of the correlation array, and every
strictly smaller index carries a strictly smaller value, so ties at the
maximum are resolved to the first occurrence (the lowest index, hence the
most negative lag). -/
theorem find_offset_first_occurrence (a1 a2 : List ℚ)
    (h1 : 0 < a1.length) (h2 : 0 < a2.length) :
    find_offset a1 a2 =
      (argmax (correlateFull a1 a2) : ℤ) - (a2.length : ℤ) + 1 ∧
    argmax (correlateFull a1 a2) < (correlateFull a1 a2).length ∧
    (∀ m, m < (correlateFull a1 a2).length →
      (correlateFull a1 a2).getD m 0 ≤
        (correlateFull a1 a2).getD (argmax (correlateFull a1 a2)) 0) ∧
    (∀ j, j < argmax (correlateFull a1 a2) →
      (correlateFull a1 a2).getD j 0 <
        (correlateFull a1 a2).getD (argmax (correlateFull a1 a2)) 0) := by
  have hlen : 0 < (correlateFull a1 a2).length := by
    rw [length_correlateFull]; omega
  obtain ⟨ha, hb, hc⟩ := argmax_spec (correlateFull a1 a2) hlen
  exact ⟨rfl, ha, hb, hc⟩

/-- Witness for C3 at `a1 = [1, 1]`, `a2 = [1]`, whose correlation `[1, 1]`
has a tie at the maximum: the selected index is the first one. -/
theorem find_offset_first_occurrence_witness :
    0 < ([1, 1] : List ℚ).length ∧ 0 < ([1] : List ℚ).length ∧
    (find_offset [1, 1] [1] =
      (argmax (correlateFull [1, 1] [1]) : ℤ) - (([1] : List ℚ).length : ℤ) + 1 ∧
    argmax (correlateFull [1, 1] [1]) < (correlateFull [1, 1] [1]).length ∧
    (∀ m, m < (correlateFull [1, 1] [1]).length →
      (correlateFull [1, 1] [1]).getD m 0 ≤
        (correlateFull [1, 1] [1]).getD (argmax (correlateFull [1, 1] [1])) 0) ∧
    (∀ j, j < argmax (correlateFull [1, 1] [1]) →
      (correlateFull [1, 1] [1]).getD j 0 <
        (correlateFull [1, 1] [1]).getD (argmax (correlateFull [1, 1] [1])) 0)) :=
  ⟨by decide, by decide, find_offset_first_occurrence [1, 1] [1] (by decide) (by decide)⟩

/-- Amended C1: for equal-length inputs of length `N > 0` the correlation
has length `2N - 1`, the returned lag is the selected index minus `N - 1`,
and the selected index attains the maximum signed value (first occurrence)
of the raw, unnormalized correlation; the original claim instead selected
the index of maximal absolute magnitude. -/
theorem find_offset_argmax_signed (a1 a2 : List ℚ)
    (h : a1.length = a2.length) (hN : 0 < a2.length) :
    (correlateFull a1 a2).length = 2 * a2.length - 1 ∧
    find_offset a1 a2 =
      (argmax (correlateFull a1 a2) : ℤ) - ((a2.length : ℤ) - 1) ∧
    ∀ m, m < (correlateFull a1 a2).length →
      (correlateFull a1 a2).getD m 0 ≤
        (correlateFull a1 a2).getD (argmax (correlateFull a1 a2)) 0 := by
  have hlen : (correlateFull a1 a2).length = 2 * a2.length - 1 := by
    rw [length_correlateFull, h]; omega
  have hpos : 0 < (correlateFull a1 a2).length := by omega
  refine ⟨hlen, ?_, (argmax_spec _ hpos).2.1⟩
  unfold find_offset
  ring

/-- Witness for the amended C1 at `a1 = [1, 2]`, `a2 = [3, 4]`. -/
theorem find_offset_argmax_signed_witness :
    ([1, 2] : List ℚ).length = ([3, 4] : List ℚ).length ∧
    0 < ([3, 4] : List ℚ).length ∧
    ((correlateFull [1, 2] [3, 4]).length = 2 * ([3, 4] : List ℚ).length - 1 ∧
    find_offset [1, 2] [3, 4] =
      (argmax (correlateFull [1, 2] [3, 4]) : ℤ) - ((([3, 4] : List ℚ).length : ℤ) - 1) ∧
    ∀ m, m < (correlateFull [1, 2] [3, 4]).length →
      (correlateFull [1, 2] [3, 4]).getD m 0 ≤
        (correlateFull [1, 2] [3, 4]).getD (argmax (correlateFull [1, 2] [3, 4])) 0) :=
  ⟨by decide, by decide, find_offset_argmax_signed [1, 2] [3, 4] (by decide) (by decide)⟩

/-! ### Correlation of impulse signals -/

lemma impulse_length (N p : ℕ) : (impulse N p).length = N := by
  simp [impulse]

lemma getD_map_range (f : ℕ → ℚ) (N n : ℕ) :
    ((List.range N).map f).getD n 0 = if n < N then f n else 0 := by
  by_cases h : n < N
  · simp [List.getD_eq_getElem?_getD, List.getElem?_map, List.getElem?_range, h]
  · rw [if_neg h, List.getD_eq_getElem?_getD,
      List.getElem?_eq_none (by simpa using not_lt.1 h)]
    rfl

lemma impulse_getD (N p n : ℕ) :
    (impulse N p).getD n 0 = if n = p ∧ n < N then 1 else 0 := by
  rw [impulse, getD_map_range]
  by_cases h1 : n < N <;> by_cases h2 : n = p <;> simp [h1, h2]

lemma sampleAt_impulse (N p : ℕ) (hp : p < N) (j : ℤ) :
    sampleAt (impulse N p) j = if j = (p : ℤ) then 1 else 0 := by
  unfold sampleAt
  by_cases h0 : 0 ≤ j
  · rw [if_pos h0, impulse_getD]
    by_cases hj : j = (p : ℤ)
    · rw [if_pos ⟨by omega, by omega⟩, if_pos hj]
    · have hne : ¬ (j.toNat = p ∧ j.toNat < N) := by
        rintro ⟨h1, _⟩; apply hj; omega
      rw [if_neg hne, if_neg hj]
  · rw [if_neg h0, if_neg (by omega)]

lemma corrAt_impulse (N p q i : ℕ) (hp : p < N) (hq : q < N) :
    corrAt (impulse N p) (impulse N q) i =
      if (i : ℤ) = (N : ℤ) - 1 + p - q then 1 else 0 := by
  unfold corrAt
  rw [impulse_length]
  have hsum : (∑ n ∈ Finset.range N,
        sampleAt (impulse N p) ((n : ℤ) + (i : ℤ) - ((N : ℤ) - 1)) * (impulse N q).getD n 0) =
      ∑ n ∈ Finset.range N,
        (if n = q then (if (n : ℤ) + (i : ℤ) - ((N : ℤ) - 1) = (p : ℤ) then (1 : ℚ) else 0)
         else 0) := by
    refine Finset.sum_congr rfl fun n hn => ?_
    have hnN : n < N := Finset.mem_range.1 hn
    rw [impulse_getD, sampleAt_impulse N p hp]
    by_cases h : n = q
    · subst h; simp [hnN]
    · simp [h]
  rw [hsum, Finset.sum_ite_eq' (Finset.range N) q, if_pos (Finset.mem_range.2 hq)]
  exact if_congr (by omega) rfl rfl

lemma correlateFull_impulse_getD (N p q : ℕ) (hp : p < N) (hq : q < N) (m : ℕ) :
    (correlateFull (impulse N p) (impulse N q)).getD m 0 =
      if m < 2 * N - 1 ∧ (m : ℤ) = (N : ℤ) - 1 + p - q then 1 else 0 := by
  unfold correlateFull
  rw [impulse_length, impulse_length, getD_map_range]
  by_cases hm : m < N + N - 1
  · rw [if_pos hm, corrAt_impulse N p q m hp hq]
    by_cases he : (m : ℤ) = (N : ℤ) - 1 + p - q
    · rw [if_pos he, if_pos ⟨by omega, he⟩]
    · rw [if_neg he, if_neg fun hcon => he hcon.2]
  · rw [if_neg hm, if_neg (by omega)]

lemma find_offset_impulse (N p q : ℕ) (hp : p < N) (hq : q < N) :
    find_offset (impulse N p) (impulse N q) = (p : ℤ) - (q : ℤ) := by
  have hlen : (correlateFull (impulse N p) (impulse N q)).length = 2 * N - 1 := by
    rw [length_correlateFull, impulse_length, impulse_length]; omega
  have histar_lt : N - 1 - q + p < 2 * N - 1 := by omega
  have hamax : argmax (correlateFull (impulse N p) (impulse N q)) = N - 1 - q + p := by
    have hpos : 0 < (correlateFull (impulse N p) (impulse N q)).length := by omega
    obtain ⟨ha, hb, _⟩ := argmax_spec _ hpos
    have histar_val :
        (correlateFull (impulse N p) (impulse N q)).getD (N - 1 - q + p) 0 = 1 := by
      rw [correlateFull_impulse_getD N p q hp hq, if_pos ⟨histar_lt, by omega⟩]
    have hmax_ge : (1 : ℚ) ≤
        (correlateFull (impulse N p) (impulse N q)).getD
          (argmax (correlateFull (impulse N p) (impulse N q))) 0 :=
      histar_val ▸ hb (N - 1 - q + p) (by omega)
    by_contra hne
    have hzero : (correlateFull (impulse N p) (impulse N q)).getD
        (argmax (correlateFull (impulse N p) (impulse N q))) 0 = 0 := by
      rw [correlateFull_impulse_getD N p q hp hq]
      rw [if_neg]
      rintro ⟨_, h2⟩
      exact hne (by omega)
    rw [hzero] at hmax_ge
    linarith
  unfold find_offset
  rw [hamax, impulse_length]
  omega

lemma impulse_getElem (N p i : ℕ) (h : i < (impulse N p).length) :
    (impulse N p)[i] = if i = p then 1 else 0 := by
  simp [impulse]

lemma shiftRightZ_impulse (N p k : ℕ) (_hpk : p + k < N) :
    shiftRightZ k (impulse N p) = impulse N (p + k) := by
  have hlen1 : (impulse N p).length = N := impulse_length N p
  have hlen : (shiftRightZ k (impulse N p)).length = N := by
    simp only [shiftRightZ, List.length_take, List.length_append,
      List.length_replicate, hlen1]
    omega
  apply List.ext_getElem (by rw [hlen, impulse_length])
  intro i h1 h2
  rw [impulse_getElem]
  rw [hlen] at h1
  simp only [shiftRightZ]
  rw [List.getElem_take]
  rw [List.getElem_append]
  simp only [List.length_replicate]
  by_cases hik : i < k
  · rw [dif_pos hik, List.getElem_replicate, if_neg (by omega)]
  · rw [dif_neg hik, impulse_getElem]
    exact if_congr (by omega) rfl rfl

/-- Amended C2: the estimator recovers shifts with the opposite sign, and
only for signals whose correlation peak is unambiguous.  For an impulse
signal `A` whose shifted copy stays in range, `find_offset A (shift k A)`
equals `-k` and `find_offset (shift k A) A` equals `k` (covering negative
claimed shifts); the original claim asserted `find_offset A (shift k A) = k`
for every signal shape, which fails in general. -/
theorem find_offset_impulse_shift (N p k : ℕ) (hp : p < N) (hpk : p + k < N) :
    shiftRightZ k (impulse N p) = impulse N (p + k) ∧
    find_offset (impulse N p) (shiftRightZ k (impulse N p)) = -(k : ℤ) ∧
    find_offset (shiftRightZ k (impulse N p)) (impulse N p) = (k : ℤ) := by
  have hshift := shiftRightZ_impulse N p k hpk
  refine ⟨hshift, ?_, ?_⟩
  · rw [hshift, find_offset_impulse N p (p + k) hp hpk]
    omega
  · rw [hshift, find_offset_impulse N (p + k) p hpk hp]
    omega

/-- Witness for the amended C2 at `N = 5`, `p = 1`, `k = 2`. -/
theorem find_offset_impulse_shift_witness :
    1 < 5 ∧ 1 + 2 < 5 ∧
    (shiftRightZ 2 (impulse 5 1) = impulse 5 (1 + 2) ∧
     find_offset (impulse 5 1) (shiftRightZ 2 (impulse 5 1)) = -(2 : ℤ) ∧
     find_offset (shiftRightZ 2 (impulse 5 1)) (impulse 5 1) = (2 : ℤ)) :=
  ⟨by decide, by decide, find_offset_impulse_shift 5 1 2 (by decide) (by decide)⟩

/-! ### The main flow: codec gate, check mode, branch selection, cleanup -/

lemma mainFlow_check_eq (videoPath : String) (video audio : StreamInfo)
    (audio1 audio2 : List ℚ) (cwd tmpName : String) (pe ce te : ℤ) :
    mainFlow videoPath true video audio audio1 audio2 cwd tmpName pe ce te =
      (offsetHeader (flowLag audio1 audio2) (format_time (flowLag audio1 audio2) 44100)
        (format_time (audio2.length : ℤ) 44100) ++ [Event.exitOk], 0) := by
  simp [mainFlow, flowLag]

/-- C8: in check-only mode the run prints the offset header (lag plus
sample rate, start timecode, duration timecode) and exits with code 0;
no event of the trace creates a directory, runs an external command,
writes a file or removes one, and no assertion fails. -/
theorem check_only_reports_and_exits_zero (videoPath : String)
    (video audio : StreamInfo) (audio1 audio2 : List ℚ)
    (cwd tmpName : String) (pe ce te : ℤ) :
    mainFlow videoPath true video audio audio1 audio2 cwd tmpName pe ce te =
      (offsetHeader (flowLag audio1 audio2) (format_time (flowLag audio1 audio2) 44100)
        (format_time (audio2.length : ℤ) 44100) ++ [Event.exitOk], 0) ∧
    ∀ e ∈ (mainFlow videoPath true video audio audio1 audio2 cwd tmpName pe ce te).1,
      e.writesFs = false ∧ e.isAssertFail = false := by
  refine ⟨mainFlow_check_eq _ _ _ _ _ _ _ _ _ _, ?_⟩
  intro e he
  rw [mainFlow_check_eq] at he
  simp only [offsetHeader, List.mem_append, List.mem_cons,
    List.mem_singleton, List.not_mem_nil, or_false] at he
  rcases he with (rfl | rfl | rfl) | rfl <;> exact ⟨rfl, rfl⟩

/-- Counterexample to C7: with a hevc video stream in non-check mode the
run does fail on the codec assertion, but the output directory is created
first: the first event of the trace is the `mkdir`, not the error, so the
failure does not happen before any directory creation. -/
theorem codec_gate_after_mkdir :
    mainFlow "v.mp4" false ⟨"hevc", "Main", "120", "yuv420p"⟩ ⟨"aac", "LC", "0", ""⟩
        [1] [1] "/w" "/w/list.txt" 0 0 0 =
      ([Event.mkdir "cut", Event.assertFail "only support h264 for video codes"], 1) ∧
    (mainFlow "v.mp4" false ⟨"hevc", "Main", "120", "yuv420p"⟩ ⟨"aac", "LC", "0", ""⟩
        [1] [1] "/w" "/w/list.txt" 0 0 0).1.head? = some (Event.mkdir "cut") := by
  with_unfolding_all decide

/-- Amended C7: in non-check mode an unsupported codec (video not h264, or
audio not aac) aborts the run with the assertion error and exit code 1
immediately after the output directory is created — after that `mkdir` but
before any file write or external command; in check-only mode the codec
check is skipped and no error is raised. -/
theorem codec_gate_spec (videoPath : String) (video audio : StreamInfo)
    (audio1 audio2 : List ℚ) (cwd tmpName : String) (pe ce te : ℤ)
    (h : video.codec_name ≠ "h264" ∨ audio.codec_name ≠ "aac") :
    mainFlow videoPath false video audio audio1 audio2 cwd tmpName pe ce te =
      ([Event.mkdir (destDirOf videoPath),
        Event.assertFail (if video.codec_name ≠ "h264" then
          "only support h264 for video codes" else "only support aac for audio codes")], 1) ∧
    (∀ e ∈ (mainFlow videoPath true video audio audio1 audio2 cwd tmpName pe ce te).1,
      e.isAssertFail = false) ∧
    (mainFlow videoPath true video audio audio1 audio2 cwd tmpName pe ce te).2 = 0 := by
  have hcheck : ∀ e ∈ (mainFlow videoPath true video audio audio1 audio2 cwd tmpName
      pe ce te).1, e.isAssertFail = false := by
    intro e he
    rw [mainFlow_check_eq] at he
    simp only [offsetHeader, List.mem_append, List.mem_cons,
      List.mem_singleton, List.not_mem_nil, or_false] at he
    rcases he with (rfl | rfl | rfl) | rfl <;> rfl
  refine ⟨?_, hcheck, by rw [mainFlow_check_eq]⟩
  by_cases hv : video.codec_name = "h264"
  · have ha : audio.codec_name ≠ "aac" := by tauto
    rw [if_neg (by simpa using hv)]
    simp [mainFlow, hv, ha]
  · rw [if_pos hv]
    simp [mainFlow, hv]

/-- Witness for the amended C7 with a hevc video stream. -/
theorem codec_gate_spec_witness :
    ((⟨"hevc", "Main", "120", "yuv420p"⟩ : StreamInfo).codec_name ≠ "h264" ∨
      (⟨"aac", "LC", "0", ""⟩ : StreamInfo).codec_name ≠ "aac") ∧
    (mainFlow "a/v.mp4" false ⟨"hevc", "Main", "120", "yuv420p"⟩ ⟨"aac", "LC", "0", ""⟩
        [1] [1] "/w" "/w/list.txt" 2 3 4 =
      ([Event.mkdir (destDirOf "a/v.mp4"),
        Event.assertFail (if (⟨"hevc", "Main", "120", "yuv420p"⟩ : StreamInfo).codec_name ≠ "h264"
          then "only support h264 for video codes"
          else "only support aac for audio codes")], 1) ∧
    (∀ e ∈ (mainFlow "a/v.mp4" true ⟨"hevc", "Main", "120", "yuv420p"⟩ ⟨"aac", "LC", "0", ""⟩
        [1] [1] "/w" "/w/list.txt" 2 3 4).1, e.isAssertFail = false) ∧
    (mainFlow "a/v.mp4" true ⟨"hevc", "Main", "120", "yuv420p"⟩ ⟨"aac", "LC", "0", ""⟩
        [1] [1] "/w" "/w/list.txt" 2 3 4).2 = 0) :=
  ⟨Or.inl (by decide),
   codec_gate_spec "a/v.mp4" ⟨"hevc", "Main", "120", "yuv420p"⟩ ⟨"aac", "LC", "0", ""⟩
     [1] [1] "/w" "/w/list.txt" 2 3 4 (Or.inl (by decide))⟩

/-- C6: in non-check mode with supported codecs, the branch is selected
solely by the sign of the lag: a nonnegative lag yields the trim-only plan
(seek by the lag timecode, keep the probe-duration timecode, stream-copy)
and a negative lag yields the pad-and-concat plan (synthesize a padding
segment, concatenate it before the original, truncate to the
probe-duration timecode). -/
theorem branch_selected_by_lag_sign (videoPath : String) (video audio : StreamInfo)
    (audio1 audio2 : List ℚ) (cwd tmpName : String) (pe ce te : ℤ)
    (hv : video.codec_name = "h264") (ha : audio.codec_name = "aac") :
    mainFlow videoPath false video audio audio1 audio2 cwd tmpName pe ce te =
      ([Event.mkdir (destDirOf videoPath)] ++
        offsetHeader (flowLag audio1 audio2) (format_time (flowLag audio1 audio2) 44100)
          (format_time (audio2.length : ℤ) 44100) ++
        [Event.print (outputNameOf videoPath (flowLag audio1 audio2))] ++
        (if flowLag audio1 audio2 < 0 then
          padBranch videoPath video (format_time (flowLag audio1 audio2) 44100)
            (format_time (audio2.length : ℤ) 44100)
            (outputNameOf videoPath (flowLag audio1 audio2)) tmpName cwd pe ce
         else
          trimBranch videoPath (format_time (flowLag audio1 audio2) 44100)
            (format_time (audio2.length : ℤ) 44100)
            (outputNameOf videoPath (flowLag audio1 audio2)) te), 0) := by
  by_cases hl : mainLag (insert_padding audio1 audio2).1 (insert_padding audio1 audio2).2 < 0 <;>
    simp [mainFlow, flowLag, hv, ha, hl, List.append_assoc]

/-- Witness for C6 at a concrete run with lag 0 (trim branch selected). -/
theorem branch_selected_by_lag_sign_witness :
    (⟨"h264", "High", "40", "yuv420p"⟩ : StreamInfo).codec_name = "h264" ∧
    mainFlow "v.mp4" false ⟨"h264", "High", "40", "yuv420p"⟩ ⟨"aac", "LC", "0", ""⟩
        [1] [1] "/w" "/w/list.txt" 0 0 0 =
      ([Event.mkdir (destDirOf "v.mp4")] ++
        offsetHeader (flowLag [1] [1]) (format_time (flowLag [1] [1]) 44100)
          (format_time (([1] : List ℚ).length : ℤ) 44100) ++
        [Event.print (outputNameOf "v.mp4" (flowLag [1] [1]))] ++
        (if flowLag [1] [1] < 0 then
          padBranch "v.mp4" ⟨"h264", "High", "40", "yuv420p"⟩
            (format_time (flowLag [1] [1]) 44100)
            (format_time (([1] : List ℚ).length : ℤ) 44100)
            (outputNameOf "v.mp4" (flowLag [1] [1])) "/w/list.txt" "/w" 0 0
         else
          trimBranch "v.mp4" (format_time (flowLag [1] [1]) 44100)
            (format_time (([1] : List ℚ).length : ℤ) 44100)
            (outputNameOf "v.mp4" (flowLag [1] [1])) 0), 0) :=
  ⟨rfl, branch_selected_by_lag_sign "v.mp4" ⟨"h264", "High", "40", "yuv420p"⟩
    ⟨"aac", "LC", "0", ""⟩ [1] [1] "/w" "/w/list.txt" 0 0 0 rfl rfl⟩

/-- C9: in every pad-and-concat run the trace ends, for every exit code of
the concat invocation, with the removal of the synthetic padding video:
the padding is synthesized first, the concat consumes it, and the final
event deletes it, so after the run the padding file no longer exists. -/
theorem pad_branch_cleanup (videoPath : String) (video audio : StreamInfo)
    (audio1 audio2 : List ℚ) (cwd tmpName : String) (pe ce te : ℤ)
    (hv : video.codec_name = "h264") (ha : audio.codec_name = "aac")
    (hlag : flowLag audio1 audio2 < 0) :
    (mainFlow videoPath false video audio audio1 audio2 cwd tmpName pe ce te).1 =
      ([Event.mkdir (destDirOf videoPath)] ++
        offsetHeader (flowLag audio1 audio2) (format_time (flowLag audio1 audio2) 44100)
          (format_time (audio2.length : ℤ) 44100) ++
        [Event.print (outputNameOf videoPath (flowLag audio1 audio2))] ++
        padBranch videoPath video (format_time (flowLag audio1 audio2) 44100)
          (format_time (audio2.length : ℤ) 44100)
          (outputNameOf videoPath (flowLag audio1 audio2)) tmpName cwd pe ce) ∧
    (mainFlow videoPath false video audio audio1 audio2 cwd tmpName pe ce te).1.getLast? =
      some (Event.removeFile (emptyPathOf videoPath)) := by
  have htrace : (mainFlow videoPath false video audio audio1 audio2 cwd tmpName pe ce te).1 =
      ([Event.mkdir (destDirOf videoPath)] ++
        offsetHeader (flowLag audio1 audio2) (format_time (flowLag audio1 audio2) 44100)
          (format_time (audio2.length : ℤ) 44100) ++
        [Event.print (outputNameOf videoPath (flowLag audio1 audio2))] ++
        padBranch videoPath video (format_time (flowLag audio1 audio2) 44100)
          (format_time (audio2.length : ℤ) 44100)
          (outputNameOf videoPath (flowLag audio1 audio2)) tmpName cwd pe ce) := by
    have hl : mainLag (insert_padding audio1 audio2).1 (insert_padding audio1 audio2).2 < 0 :=
      hlag
    simp [mainFlow, flowLag, hv, ha, hl, List.append_assoc]
  refine ⟨htrace, ?_⟩
  rw [htrace, padBranch]
  rw [List.getLast?_append_of_ne_nil _ (by simp)]
  rfl

/-- Witness for C9 at a concrete run with lag `-1` and concat exit code 7. -/
theorem pad_branch_cleanup_witness :
    flowLag [1, 0] [0, 1] < 0 ∧
    ((mainFlow "v.mp4" false ⟨"h264", "High", "40", "yuv420p"⟩ ⟨"aac", "LC", "0", ""⟩
        [1, 0] [0, 1] "/w" "/w/list.txt" 0 7 0).1 =
      ([Event.mkdir (destDirOf "v.mp4")] ++
        offsetHeader (flowLag [1, 0] [0, 1]) (format_time (flowLag [1, 0] [0, 1]) 44100)
          (format_time (([0, 1] : List ℚ).length : ℤ) 44100) ++
        [Event.print (outputNameOf "v.mp4" (flowLag [1, 0] [0, 1]))] ++
        padBranch "v.mp4" ⟨"h264", "High", "40", "yuv420p"⟩
          (format_time (flowLag [1, 0] [0, 1]) 44100)
          (format_time (([0, 1] : List ℚ).length : ℤ) 44100)
          (outputNameOf "v.mp4" (flowLag [1, 0] [0, 1])) "/w/list.txt" "/w" 0 7) ∧
    (mainFlow "v.mp4" false ⟨"h264", "High", "40", "yuv420p"⟩ ⟨"aac", "LC", "0", ""⟩
        [1, 0] [0, 1] "/w" "/w/list.txt" 0 7 0).1.getLast? =
      some (Event.removeFile (emptyPathOf "v.mp4"))) :=
  ⟨by with_unfolding_all decide,
   pad_branch_cleanup "v.mp4" ⟨"h264", "High", "40", "yuv420p"⟩ ⟨"aac", "LC", "0", ""⟩
     [1, 0] [0, 1] "/w" "/w/list.txt" 0 7 0 rfl rfl (by with_unfolding_all decide)⟩


end AvSync
